import Mathlib

/-!
Verification development for the `sf` terminal file navigator (src/sf.c).

The C program is shallowly embedded as follows.

* A canonical absolute path is a `List String` of components (the root is
  `[]`, `/a/b` is `["a", "b"]`).  `realpath` applied to an entry name `n`
  with working directory `p` resolves to `p ++ [n]`; `realpath("..")`
  resolves to `p.dropLast`.  `sf_get_path_level` (a count of separators in
  the canonical string) is the component count.
* The filesystem is a function `Fs : FsPath → Option (List Entry)` giving the
  raw `readdir` stream of each existing directory (entry name plus the
  `d_type`-derived classification), `none` when `opendir`/`chdir` on that
  path fails.  The filesystem is constant during a command sequence.
* `uint32_t` counters are `Nat`; the single place where C wraparound
  matters (`entry_count - 1` in the move-down guard) is modelled explicitly
  with arithmetic modulo `2 ^ 32` (`u32sub1`).
* `strcoll` is modelled as byte-wise string comparison (the documented
  weaker-default collation): lexicographic comparison of code points.
* `qsort` is modelled as an insertion sort driven by `sf_entry_cmp`
  (`sf_qsort`); `realloc` of the offset stack preserves the prefix that the
  C code preserves and the loop in `sf_view_update_stacks` zeroes the slots
  it zeroes.
* The global state (`sf_views`, `sf_current_view`, the process working
  directory, `sf_show_hidden_files`, `sf_side_view`) is the record
  `SFState`; `chdir` is `chdirTo`, which updates the working directory only
  when the target directory exists, exactly as a failed `chdir(2)` leaves
  the process directory untouched.
-/

/-- Classification of a directory entry, from `sf_entry_type_t`. -/
inductive EntryType where
  | file
  | directory
  | link
  | unknown
deriving DecidableEq, Repr, Inhabited

/-- One directory entry, from `sf_entry_t` (name plus `d_type` class). -/
structure Entry where
  name : String
  etype : EntryType
deriving DecidableEq, Repr, Inhabited

/-- A canonical absolute path: its components below the root. -/
abbrev FsPath := List String

/-- The filesystem: raw `readdir` contents of each existing directory. -/
abbrev Fs := FsPath → Option (List Entry)

/-- `sf_get_path_level`: count of separators in the canonical path (root is
level 0, `/a/b` is level 2).  In the embedding this is the component count. -/
def sf_get_path_level (p : FsPath) : Nat := p.length

/-- `sf_get_top_dir_from_path`: final component of a canonical path; the
root path yields the separator itself. -/
def sf_get_top_dir (p : FsPath) : String := p.getLast?.getD "/"

/-- Character-wise lexicographic three-way comparison on code points. -/
def strcollChars : List Char → List Char → Int
  | [], [] => 0
  | [], _ :: _ => -1
  | _ :: _, [] => 1
  | a :: as, b :: bs =>
    if a.toNat < b.toNat then -1
    else if b.toNat < a.toNat then 1
    else strcollChars as bs

/-- `strcoll`, modelled as byte-wise comparison returning the sign C uses
(the documented weaker-default collation: plain code-point order). -/
def strcoll (a b : String) : Int := strcollChars a.data b.data

/-- `sf_entry_cmp` (src/sf.c:170-183): directories before files, everything
else falls through to `strcoll` on the names. -/
def sf_entry_cmp (a b : Entry) : Int :=
  if a.etype = EntryType.directory ∧ b.etype = EntryType.file then -1
  else if a.etype = EntryType.file ∧ b.etype = EntryType.directory then 1
  else strcoll a.name b.name

/-- Insert into a list sorted by `sf_entry_cmp`. -/
def sf_insert_sorted (x : Entry) : List Entry → List Entry
  | [] => [x]
  | y :: ys =>
    if sf_entry_cmp x y ≤ 0 then x :: y :: ys else y :: sf_insert_sorted x ys

/-- The `qsort(entries, *entry_count, sizeof(sf_entry_t), sf_entry_cmp)`
call, modelled as an insertion sort driven by the same comparator. -/
def sf_qsort (l : List Entry) : List Entry :=
  l.foldr sf_insert_sorted []

/-- The `name[0] != '.'` test of `IS_VALID_ENTRY`: whether the first
character of the name is a dot (an empty name has no first character). -/
def sf_starts_with_dot (name : String) : Bool :=
  match name.data with
  | [] => false
  | c :: _ => c = '.'

/-- The `IS_VALID_ENTRY` macro (src/sf.c:190-192): drop `.` and `..`, and
drop dotfiles unless `sf_show_hidden_files` is set. -/
def sf_is_valid_entry (show_hidden : Bool) (name : String) : Bool :=
  name ≠ "." && name ≠ ".." && (show_hidden || !(sf_starts_with_dot name))

/-- `sf_get_entries` (src/sf.c:185-235).  On `opendir` success the raw
stream is filtered by `IS_VALID_ENTRY` and sorted.  On `opendir` failure
the out-parameters are left exactly as the caller passed them (`prev`) and
only the final unconditional `qsort` touches the buffer. -/
def sf_get_entries (fs : Fs) (show_hidden : Bool) (p : FsPath)
    (prev : List Entry) : List Entry :=
  match fs p with
  | none => sf_qsort prev
  | some raw => sf_qsort (raw.filter (fun e => sf_is_valid_entry show_hidden e.name))

/-- Listing a directory that exists: the `prev` buffer is irrelevant. -/
def sf_listing (fs : Fs) (show_hidden : Bool) (p : FsPath) : List Entry :=
  sf_get_entries fs show_hidden p []

/-- `uint32_t` subtraction of one, as computed by `entry_count - 1`. -/
def u32sub1 (n : Nat) : Nat := (n + (2 ^ 32 - 1)) % 2 ^ 32

/-- One browsing context, from `sf_view_t`.  `entry_count` is the length of
`entries`; `offset_stack` holds the allocated slots (`stack_size` many are
considered live, the allocation may be larger after an ascend). -/
structure View where
  path : FsPath
  selected_entry : Nat
  entries : List Entry
  offset_stack : List Nat
  stack_size : Nat
deriving DecidableEq, Repr, Inhabited

/-- The preview listing, from `sf_side_view_t`. -/
structure SideView where
  path : FsPath
  entries : List Entry
  has_dir : Bool
deriving DecidableEq, Repr, Inhabited

/-- The global navigation state: `sf_views`, `sf_current_view`, the process
working directory, `sf_show_hidden_files` and `sf_side_view`. -/
structure SFState where
  views : List View
  current : Nat
  cwd : FsPath
  show_hidden : Bool
  side : SideView
deriving DecidableEq, Repr, Inhabited

/-- The view stored at slot `i`. -/
def SFState.viewAt (s : SFState) (i : Nat) : View := s.views.getD i default

/-- Store view `v` at slot `i`. -/
def SFState.putView (s : SFState) (i : Nat) (v : View) : SFState :=
  { s with views := s.views.set i v }

/-- `chdir(p)`: succeeds (and moves the working directory) exactly when the
target exists as a directory; a failed `chdir` leaves it untouched. -/
def chdirTo (fs : Fs) (s : SFState) (p : FsPath) : SFState :=
  if (fs p).isSome then { s with cwd := p } else s

/-- The unchecked read `view->entries[view->selected_entry]` that
`sf_side_view_update`, `SF_KEY_FORWARD`, `SF_KEY_OPEN` and `SF_KEY_EDIT`
all perform.  `none` models the out-of-bounds access that happens in C when
the listing is empty (or the selection is past the end). -/
def sf_selected_deref (v : View) : Option Entry :=
  v.entries.get? v.selected_entry

/-- `sf_side_view_set_path` (src/sf.c:264-284), for a nonempty target path:
`chdir` into the (already canonical) target; on success store the path,
re-list, and `chdir` back to the active view's directory. -/
def sf_side_view_set_path (fs : Fs) (s : SFState) (target : FsPath) : SFState :=
  match fs target with
  | none => s
  | some _ =>
    let s1 : SFState := { s with cwd := target }
    let s2 : SFState :=
      { s1 with side :=
          { s1.side with
              path := target,
              entries := sf_get_entries fs s1.show_hidden target s1.side.entries } }
    chdirTo fs s2 (s2.viewAt s2.current).path

/-- `sf_side_view_update` (src/sf.c:299-312), driven by view `i`: if the
selected entry is a directory, point the side view at it and mark `has_dir`
(unconditionally, even if the inner `set_path` failed); otherwise only
clear `has_dir`. -/
def sf_side_view_update (fs : Fs) (s : SFState) (i : Nat) : SFState :=
  let v := s.viewAt i
  let entry := (sf_selected_deref v).getD default
  if entry.etype = EntryType.directory then
    let s1 := sf_side_view_set_path fs s (v.path ++ [entry.name])
    { s1 with side := { s1.side with has_dir := true } }
  else
    { s with side := { s.side with has_dir := false } }

/-- `sf_view_update_stacks` (src/sf.c:317-329): recompute `stack_size` as
`level + 2`; only when that grew, `realloc` (which preserves the first
`old` slots and, when the previous allocation was larger, truncates it)
and zero the slots from the old size up to the new one. -/
def sf_view_update_stacks (v : View) : View :=
  let old := v.stack_size
  let newSize := sf_get_path_level v.path + 2
  if old < newSize then
    { v with
        stack_size := newSize,
        offset_stack := v.offset_stack.take old ++ List.replicate (newSize - old) 0 }
  else
    { v with stack_size := newSize }

/-- `sf_view_set_selected_entry` (src/sf.c:331-353).  The C code stores the
raw index first and then clamps only a local copy (dead stores; the
`entry_index < 0` branch is unsigned and always false), so the stored
selection is the unclamped argument.  Then the stacks are updated, slot
`level + 1` is reset and the side view is re-synced. -/
def sf_view_set_selected_entry (fs : Fs) (s : SFState) (i : Nat)
    (entry_index : Nat) : SFState :=
  let v0 := s.viewAt i
  let v1 : View := { v0 with selected_entry := entry_index }
  let v2 := sf_view_update_stacks v1
  let level := sf_get_path_level v2.path
  let v3 : View := { v2 with offset_stack := v2.offset_stack.set (level + 1) 0 }
  sf_side_view_update fs (s.putView i v3) i

/-- `sf_view_update_entries` (src/sf.c:355-364): re-list `"."` (the current
working directory) and, when at most one entry resulted, reset the
selection to 0. -/
def sf_view_update_entries (fs : Fs) (s : SFState) (i : Nat) : SFState :=
  let v0 := s.viewAt i
  let entries := sf_get_entries fs s.show_hidden s.cwd v0.entries
  let s1 := s.putView i { v0 with entries := entries }
  if entries.length ≤ 1 then sf_view_set_selected_entry fs s1 i 0 else s1

/-- The tail of `sf_view_set_path` after the path field has been stored
(`s2` already carries `cwd = target` and the view's new path): re-list,
update the stacks, and `chdir` back to the active view's directory. -/
def sf_set_path_tail (fs : Fs) (s2 : SFState) (i : Nat) : SFState :=
  let s3 := sf_view_update_entries fs s2 i
  let s4 := s3.putView i (sf_view_update_stacks (s3.viewAt i))
  chdirTo fs s4 (s4.viewAt s4.current).path

/-- `sf_view_set_path` (src/sf.c:366-376): `chdir` to the canonicalized
target; on failure do nothing; on success store the path, re-list, update
the stacks and `chdir` back to the active view's directory. -/
def sf_view_set_path (fs : Fs) (s : SFState) (i : Nat) (target : FsPath) : SFState :=
  match fs target with
  | none => s
  | some _ =>
    let s1 : SFState := { s with cwd := target }
    let v0 := s1.viewAt i
    sf_set_path_tail fs (s1.putView i { v0 with path := target }) i

/-- `sf_set_view` (src/sf.c:400-406): switch the active view, `chdir` to
its directory and re-sync the side view from it. -/
def sf_set_view (fs : Fs) (s : SFState) (i : Nat) : SFState :=
  let s1 : SFState := { s with current := i }
  let s2 := chdirTo fs s1 (s1.viewAt i).path
  sf_side_view_update fs s2 i

/-- `SF_KEY_DOWN` handler (src/sf.c:635-641).  The guard computes
`entry_count - 1` in `uint32_t`, which wraps around on an empty listing. -/
def sf_key_down (fs : Fs) (s : SFState) : SFState :=
  let v := s.viewAt s.current
  if v.selected_entry < u32sub1 v.entries.length then
    sf_view_set_selected_entry fs s s.current (v.selected_entry + 1)
  else s

/-- `SF_KEY_UP` handler (src/sf.c:642-648). -/
def sf_key_up (fs : Fs) (s : SFState) : SFState :=
  let v := s.viewAt s.current
  if 0 < v.selected_entry then
    sf_view_set_selected_entry fs s s.current (v.selected_entry - 1)
  else s

/-- `SF_KEY_FORWARD` handler (src/sf.c:620-634): descend into the selected
entry when it is a directory (its name resolves against the working
directory), then select index 0 — even if the `set_path` failed. -/
def sf_key_forward (fs : Fs) (s : SFState) : SFState :=
  let v := s.viewAt s.current
  let entry := (sf_selected_deref v).getD default
  if entry.etype = EntryType.directory then
    let s1 := sf_view_set_path fs s s.current (s.cwd ++ [entry.name])
    sf_view_set_selected_entry fs s1 s1.current 0
  else s

/-- The re-selection loop of `SF_KEY_BACKWARD` (src/sf.c:612-616): scan
the first `n` indices of the re-listed entries `L` and re-select every one
whose name equals the remembered component (no break: the last match
wins). -/
def sf_backward_scan (fs : Fs) (L : List Entry) (prev_name : String)
    (t : SFState) (n : Nat) : SFState :=
  (List.range n).foldl
    (fun acc i =>
      if (L.getD i default).name = prev_name then
        sf_view_set_selected_entry fs acc acc.current i
      else acc)
    t

/-- `SF_KEY_BACKWARD` handler (src/sf.c:606-619): remember the top
component of the view's path, `set_path("..")` (resolved against the
working directory), then scan the re-listed entries and re-select every
index whose name matches (the loop does not break, so the last match
wins). -/
def sf_key_backward (fs : Fs) (s : SFState) : SFState :=
  let v := s.viewAt s.current
  let prev_name := sf_get_top_dir v.path
  let s1 := sf_view_set_path fs s s.current s.cwd.dropLast
  let v1 := s1.viewAt s1.current
  sf_backward_scan fs v1.entries prev_name s1 v1.entries.length

/-- `SF_KEY_TOGGLE_HIDDEN` handler (src/sf.c:671-686): flip the flag,
remember the selected name (an unchecked read), re-list, and re-select the
first index with that name (this loop breaks on the first match). -/
def sf_key_toggle_hidden (fs : Fs) (s : SFState) : SFState :=
  let s1 : SFState := { s with show_hidden := !s.show_hidden }
  let v := s1.viewAt s1.current
  let name := ((sf_selected_deref v).getD default).name
  let s2 := sf_view_update_entries fs s1 s1.current
  let v2 := s2.viewAt s2.current
  match (List.range v2.entries.length).find?
      (fun i => (v2.entries.getD i default).name = name) with
  | some i => sf_view_set_selected_entry fs s2 s2.current i
  | none => s2

/-- Canonical path rendered back to a string. -/
def sf_path_string (p : FsPath) : String := "/" ++ String.intercalate "/" p

/-- The configured opener program (config.h). -/
def SF_OPENER : String := "xdg-open"

/-- The configured editor program (config.h). -/
def SF_EDITOR : String := "nvim"

/-- `SF_KEY_OPEN` handler (src/sf.c:649-660): an unchecked selected-entry
read; when the entry is a regular file, the argv handed to `sf_spawn`. -/
def sf_key_open (s : SFState) : Option (List String) :=
  let v := s.viewAt s.current
  let entry := (sf_selected_deref v).getD default
  if entry.etype = EntryType.file then
    some [SF_OPENER, sf_path_string (s.cwd ++ [entry.name])]
  else none

/-- `SF_KEY_EDIT` handler (src/sf.c:661-670): an unchecked selected-entry
read; the argv handed to `sf_spawn`. -/
def sf_key_edit (s : SFState) : List String :=
  let v := s.viewAt s.current
  let entry := (sf_selected_deref v).getD default
  [SF_EDITOR, sf_path_string (s.cwd ++ [entry.name])]

/-- `SF_FLAG_NOTRACE` (src/sf.c:24). -/
def SF_FLAG_NOTRACE : Nat := 1

/-- `SF_FLAG_TERM` (src/sf.c:25). -/
def SF_FLAG_TERM : Nat := 2

/-- `SF_FLAG_NOWAIT` (src/sf.c:26). -/
def SF_FLAG_NOWAIT : Nat := 4

/-- Outcome of one `waitpid` call as observed by the parent in `sf_spawn`:
`-1` (interruption) or the child's exit being reaped. -/
inductive WaitResult where
  | interrupted
  | exited (pid : Nat)
deriving DecidableEq, Repr

/-- The parent's wait loop in `sf_spawn` (src/sf.c:120-123): re-issue
`waitpid` while it returns `-1`.  Given the sequence of results the
successive calls would produce, this returns the number of `waitpid` calls
made before the loop exits (or `none` if no exit is ever observed, in which
case the C loop spins forever). -/
def sf_wait_loop : List WaitResult → Option Nat
  | [] => none
  | WaitResult.interrupted :: rest => (sf_wait_loop rest).map (· + 1)
  | WaitResult.exited _ :: _ => some 1

/-- Number of `waitpid` calls the parent in `sf_spawn` performs: zero when
`SF_FLAG_NOWAIT` is set, otherwise the wait loop runs. -/
def sf_spawn_parent_wait_count (flags : Nat) (waits : List WaitResult) : Option Nat :=
  if flags &&& SF_FLAG_NOWAIT ≠ 0 then some 0 else sf_wait_loop waits

/-- The child's exit in `sf_spawn` (src/sf.c:117-118): a successful
`execvp` never returns (`none`), a launch failure falls through to
`_exit(1)`. -/
def sf_spawn_child_exit_code (exec_ok : Bool) : Option Nat :=
  if exec_ok then none else some 1

/-- `sf_spawn`'s effect on the navigation state.  The body of `sf_spawn`
(src/sf.c:95-128) touches only the terminal and the child process: it reads
and writes none of `sf_views`, `sf_current_view`, `sf_show_hidden_files`,
`sf_side_view` or the working directory, so its effect on the navigation
state is the identity. -/
def sf_spawn_nav_state (s : SFState) : SFState := s

/-!
Concrete fixtures used by counterexamples and witnesses.  Each `Fs` below
is a small filesystem; each state satisfies the program's own reachability
shape (working directory equal to the active view's path, allocation at
least `stack_size`).
-/

/-- A filesystem whose root directory exists and is empty. -/
def fsEmptyRoot : Fs := fun p => if p = [] then some [] else none

/-- A view sitting at the empty root: no entries, selection 0. -/
def stEmptyRoot : SFState :=
  { views := [{ path := [], selected_entry := 0, entries := [],
                offset_stack := [0, 0], stack_size := 2 }],
    current := 0, cwd := [], show_hidden := false, side := default }

/-- Filesystem `/a/b/c` with one directory at each level. -/
def fsChain : Fs := fun p =>
  if p = [] then some [⟨"a", EntryType.directory⟩]
  else if p = ["a"] then some [⟨"b", EntryType.directory⟩]
  else if p = ["a", "b"] then some [⟨"c", EntryType.directory⟩]
  else if p = ["a", "b", "c"] then some []
  else none

/-- A view at depth 3 (`/a/b/c`) with a five-slot offset stack. -/
def stDepth3 : SFState :=
  { views := [{ path := ["a", "b", "c"], selected_entry := 0, entries := [],
                offset_stack := [0, 0, 0, 0, 0], stack_size := 5 }],
    current := 0, cwd := ["a", "b", "c"], show_hidden := false, side := default }

/-- Filesystem where `/a` lists a subdirectory `d` whose own path is not
accessible (the `d_type` tag said directory, but descending fails). -/
def fsGhostDir : Fs := fun p =>
  if p = ["a"] then some [⟨"d", EntryType.directory⟩] else none

/-- A view at `/a` selecting the inaccessible directory `d`, with a stale
nonempty side view. -/
def stGhostDir : SFState :=
  { views := [{ path := ["a"], selected_entry := 0,
                entries := [⟨"d", EntryType.directory⟩],
                offset_stack := [0, 0, 0], stack_size := 3 }],
    current := 0, cwd := ["a"], show_hidden := false,
    side := { path := ["x"], entries := [⟨"stale", EntryType.file⟩],
              has_dir := false } }

/-- Filesystem for the descend/ascend round trip: `/a` holds directory `b`
and file `f`; `/a/b` is empty. -/
def fsRoundTrip : Fs := fun p =>
  if p = [] then some [⟨"a", EntryType.directory⟩]
  else if p = ["a"] then some [⟨"f", EntryType.file⟩, ⟨"b", EntryType.directory⟩]
  else if p = ["a", "b"] then some []
  else none

/-- A view at `/a` with the sorted listing of `/a`, selecting directory
`b`. -/
def stRoundTrip : SFState :=
  { views := [{ path := ["a"], selected_entry := 0,
                entries := [⟨"b", EntryType.directory⟩, ⟨"f", EntryType.file⟩],
                offset_stack := [0, 0, 0], stack_size := 3 }],
    current := 0, cwd := ["a"], show_hidden := false, side := default }

/-- C1.  The spec claims `selected_entry` stays within
`[0, entry_count-1]` after every navigation command and is 0 on an empty
listing.  The clamping code in `sf_view_set_selected_entry`
(src/sf.c:334-340) runs only after the raw index has already been stored
and clamps a dead local copy, and the move-down guard (src/sf.c:637)
computes `entry_count - 1` in `uint32_t`, which wraps to `2^32 - 1` on an
empty listing.  Evaluating the embedded code: pressing move-down with an
empty listing stores selection 1, not 0. -/
theorem sf_c1_down_on_empty_sets_one :
    ((sf_key_down fsEmptyRoot stEmptyRoot).viewAt 0).selected_entry = 1 ∧
    ((sf_key_down fsEmptyRoot stEmptyRoot).viewAt 0).entries = [] := by
  constructor <;> rfl

/-- C2, counterexample.  The claim says the offset stack's size grows
monotonically over the view's lifetime and never shrinks.  In the code
`sf_view_update_stacks` recomputes `stack_size` to `level + 2`
unconditionally, so ascending from `/a/b/c` to `/a` drops `stack_size`
from 5 to 3 (while the allocation still holds 5 slots), and the next
descent to `/a/b` `realloc`s the allocation down from 5 to 4 slots. -/
theorem sf_c2_counterexample :
    (stDepth3.viewAt 0).stack_size = 5 ∧
    ((sf_view_set_path fsChain stDepth3 0 ["a"]).viewAt 0).stack_size = 3 ∧
    ((sf_view_set_path fsChain stDepth3 0 ["a"]).viewAt 0).offset_stack.length = 5 ∧
    ((sf_view_set_path fsChain (sf_view_set_path fsChain stDepth3 0 ["a"]) 0
        ["a", "b"]).viewAt 0).offset_stack.length = 4 := by
  refine ⟨rfl, rfl, rfl, rfl⟩

/-- C5, counterexample.  With a Link entry present, `sf_entry_cmp` admits a
strict 3-cycle (so no total order is consistent with it), and sorting two
permutations of the same 3-element set yields different outputs, one of
which places the File `a` before the Directory `z`. -/
theorem sf_c5_counterexample :
    sf_entry_cmp ⟨"z", EntryType.directory⟩ ⟨"a", EntryType.file⟩ < 0 ∧
    sf_entry_cmp ⟨"a", EntryType.file⟩ ⟨"m", EntryType.link⟩ < 0 ∧
    sf_entry_cmp ⟨"m", EntryType.link⟩ ⟨"z", EntryType.directory⟩ < 0 ∧
    sf_qsort [⟨"a", EntryType.file⟩, ⟨"m", EntryType.link⟩,
        ⟨"z", EntryType.directory⟩] =
      [⟨"a", EntryType.file⟩, ⟨"m", EntryType.link⟩,
        ⟨"z", EntryType.directory⟩] ∧
    sf_qsort [⟨"z", EntryType.directory⟩, ⟨"a", EntryType.file⟩,
        ⟨"m", EntryType.link⟩] ≠
      sf_qsort [⟨"a", EntryType.file⟩, ⟨"m", EntryType.link⟩,
        ⟨"z", EntryType.directory⟩] := by
  refine ⟨by decide, by decide, by decide, by decide, by decide⟩

/-- C6, counterexample.  The claim says a non-directory selection or a
listing failure leaves the preview empty and inactive.  In the code
(src/sf.c:299-312) `has_dir = true` is set even when the inner
`sf_side_view_set_path` failed, and the stale entries are never cleared:
syncing against an inaccessible directory yields an active preview still
showing the previous listing. -/
theorem sf_c6_counterexample :
    (sf_side_view_update fsGhostDir stGhostDir 0).side.has_dir = true ∧
    (sf_side_view_update fsGhostDir stGhostDir 0).side.entries =
      [⟨"stale", EntryType.file⟩] ∧
    (sf_side_view_update fsGhostDir stGhostDir 0).side.path = ["x"] := by
  refine ⟨rfl, rfl, rfl⟩

/-- C7, counterexample.  The claim says an open failure yields an empty
list.  In the code (src/sf.c:194-230) `*entry_count` is written only when
`opendir` succeeded, so on failure the caller's previous contents survive
(only the final unconditional `qsort` touches them): the output is the old
buffer, not the empty list. -/
theorem sf_c7_counterexample :
    sf_get_entries (fun _ => none) false [] [⟨"x", EntryType.file⟩] =
      [⟨"x", EntryType.file⟩] ∧
    [Entry.mk "x" EntryType.file] ≠ ([] : List Entry) := by
  refine ⟨rfl, by decide⟩

/-! Helper lemmas: list access, the comparator, and the sort model. -/

theorem list_getD_set_self {α : Type} (l : List α) (i : Nat) (a d : α)
    (h : i < l.length) : (l.set i a).getD i d = a := by
  rw [List.getD_eq_getElem?_getD, List.getElem?_set_self h]
  rfl

theorem list_getD_set_ne {α : Type} (l : List α) (i j : Nat) (a d : α)
    (h : i ≠ j) : (l.set i a).getD j d = l.getD j d := by
  rw [List.getD_eq_getElem?_getD, List.getElem?_set_ne h,
    ← List.getD_eq_getElem?_getD]

theorem strcollChars_flip (as bs : List Char) :
    strcollChars bs as = -strcollChars as bs := by
  induction as generalizing bs with
  | nil => cases bs <;> simp [strcollChars]
  | cons a as ih =>
    cases bs with
    | nil => simp [strcollChars]
    | cons b bs =>
      simp only [strcollChars]
      rcases Nat.lt_trichotomy a.toNat b.toNat with h | h | h
      · simp [h, Nat.lt_asymm h, Nat.ne_of_lt h]
      · simp [h, Nat.lt_irrefl, ih]
      · simp [h, Nat.lt_asymm h, Nat.ne_of_gt h]

theorem strcollChars_eq_zero (as bs : List Char) (h : strcollChars as bs = 0) :
    as = bs := by
  induction as generalizing bs with
  | nil => cases bs with
    | nil => rfl
    | cons b bs => simp [strcollChars] at h
  | cons a as ih =>
    cases bs with
    | nil => simp [strcollChars] at h
    | cons b bs =>
      simp only [strcollChars] at h
      rcases Nat.lt_trichotomy a.toNat b.toNat with hlt | heq | hgt
      · simp [hlt] at h
      · have hc : a = b := Char.eq_of_val_eq (UInt32.ext heq)
        subst hc
        simp [Nat.lt_irrefl] at h
        exact congrArg (a :: ·) (ih bs h)
      · simp [Nat.lt_asymm hgt, hgt] at h

theorem strcollChars_trans (as bs cs : List Char)
    (h1 : strcollChars as bs ≤ 0) (h2 : strcollChars bs cs ≤ 0) :
    strcollChars as cs ≤ 0 := by
  induction as generalizing bs cs with
  | nil => cases cs <;> simp [strcollChars]
  | cons a as ih =>
    cases bs with
    | nil => cases cs with
      | nil => exact h1
      | cons c cs => simp [strcollChars] at h1
    | cons b bs =>
      cases cs with
      | nil => simp [strcollChars] at h2
      | cons c cs =>
        simp only [strcollChars] at h1 h2 ⊢
        rcases Nat.lt_trichotomy a.toNat c.toNat with hac | hac | hac
        · simp [hac]
        · simp only [hac, Nat.lt_irrefl, if_false, if_neg (Nat.lt_irrefl _)]
          rcases Nat.lt_trichotomy a.toNat b.toNat with hab | hab | hab
          · rcases Nat.lt_trichotomy b.toNat c.toNat with hbc | hbc | hbc
            · omega
            · omega
            · simp [Nat.lt_asymm hbc, hbc] at h2
          · rcases Nat.lt_trichotomy b.toNat c.toNat with hbc | hbc | hbc
            · omega
            · simp [hab, Nat.lt_irrefl] at h1
              simp [hbc, Nat.lt_irrefl] at h2
              exact ih bs cs h1 h2
            · simp [Nat.lt_asymm hbc, hbc] at h2
          · simp [Nat.lt_asymm hab, hab] at h1
        · exfalso
          rcases Nat.lt_trichotomy a.toNat b.toNat with hab | hab | hab
          · rcases Nat.lt_trichotomy b.toNat c.toNat with hbc | hbc | hbc
            · omega
            · omega
            · simp [Nat.lt_asymm hbc, hbc] at h2
          · rcases Nat.lt_trichotomy b.toNat c.toNat with hbc | hbc | hbc
            · omega
            · omega
            · simp [Nat.lt_asymm hbc, hbc] at h2
          · simp [Nat.lt_asymm hab, hab] at h1

theorem strcoll_total (a b : String) : strcoll a b ≤ 0 ∨ strcoll b a ≤ 0 := by
  have h := strcollChars_flip a.data b.data
  unfold strcoll
  omega

theorem strcoll_trans (a b c : String) (h1 : strcoll a b ≤ 0)
    (h2 : strcoll b c ≤ 0) : strcoll a c ≤ 0 :=
  strcollChars_trans a.data b.data c.data h1 h2

theorem strcoll_antisymm (a b : String) (h1 : strcoll a b ≤ 0)
    (h2 : strcoll b a ≤ 0) : a = b := by
  have hf := strcollChars_flip a.data b.data
  have hz : strcollChars a.data b.data = 0 := by unfold strcoll at h1 h2; omega
  have := strcollChars_eq_zero a.data b.data hz
  cases a
  cases b
  exact congrArg String.mk this

/-- An entry that is neither a Link nor an Unknown: the two classes for
which `sf_entry_cmp` has a genuine category split. -/
def sf_no_link (e : Entry) : Prop :=
  e.etype = EntryType.file ∨ e.etype = EntryType.directory

instance (e : Entry) : Decidable (sf_no_link e) := by
  unfold sf_no_link
  infer_instance

theorem sf_entry_cmp_total (a b : Entry) :
    sf_entry_cmp a b ≤ 0 ∨ sf_entry_cmp b a ≤ 0 := by
  have h := strcoll_total a.name b.name
  unfold sf_entry_cmp
  split_ifs <;> simp_all

theorem sf_entry_cmp_file_dir (a b : Entry) (hf : a.etype = EntryType.file)
    (hd : b.etype = EntryType.directory) : sf_entry_cmp a b = 1 := by
  simp [sf_entry_cmp, hf, hd]

theorem sf_entry_cmp_trans (a b c : Entry) (ha : sf_no_link a)
    (hb : sf_no_link b) (hc : sf_no_link c) (h1 : sf_entry_cmp a b ≤ 0)
    (h2 : sf_entry_cmp b c ≤ 0) : sf_entry_cmp a c ≤ 0 := by
  unfold sf_no_link at ha hb hc
  unfold sf_entry_cmp at h1 h2 ⊢
  rcases ha with ha | ha <;> rcases hb with hb | hb <;> rcases hc with hc | hc <;>
    simp [ha, hb, hc] at h1 h2 ⊢ <;>
    exact strcoll_trans _ _ _ h1 h2

theorem sf_entry_cmp_antisymm (a b : Entry) (ha : sf_no_link a)
    (hb : sf_no_link b) (h1 : sf_entry_cmp a b ≤ 0)
    (h2 : sf_entry_cmp b a ≤ 0) : a = b := by
  unfold sf_no_link at ha hb
  unfold sf_entry_cmp at h1 h2
  obtain ⟨na, ta⟩ := a
  obtain ⟨nb, tb⟩ := b
  simp only at h1 h2 ha hb
  rcases ha with ha | ha <;> rcases hb with hb | hb <;> subst ha <;> subst hb <;>
    simp_all <;>
    exact strcoll_antisymm na nb h1 h2

theorem mem_sf_insert_sorted (x a : Entry) (l : List Entry) :
    a ∈ sf_insert_sorted x l ↔ a = x ∨ a ∈ l := by
  induction l with
  | nil => simp [sf_insert_sorted]
  | cons y ys ih =>
    simp only [sf_insert_sorted]
    split_ifs with h
    · simp [List.mem_cons]
    · simp only [List.mem_cons, ih]
      tauto

theorem sf_insert_sorted_perm (x : Entry) (l : List Entry) :
    List.Perm (sf_insert_sorted x l) (x :: l) := by
  induction l with
  | nil => simp [sf_insert_sorted]
  | cons y ys ih =>
    simp only [sf_insert_sorted]
    split_ifs with h
    · exact List.Perm.refl _
    · exact (ih.cons y).trans (List.Perm.swap x y ys)

theorem sf_qsort_perm (l : List Entry) : List.Perm (sf_qsort l) l := by
  induction l with
  | nil => exact List.Perm.refl _
  | cons x xs ih =>
    exact (sf_insert_sorted_perm x (sf_qsort xs)).trans (ih.cons x)

theorem mem_sf_qsort (a : Entry) (l : List Entry) :
    a ∈ sf_qsort l ↔ a ∈ l :=
  (sf_qsort_perm l).mem_iff

theorem sf_insert_sorted_pairwise (x : Entry) (l : List Entry)
    (hx : sf_no_link x) (hl : ∀ e ∈ l, sf_no_link e)
    (h : l.Pairwise (fun a b => sf_entry_cmp a b ≤ 0)) :
    (sf_insert_sorted x l).Pairwise (fun a b => sf_entry_cmp a b ≤ 0) := by
  induction l with
  | nil => simp [sf_insert_sorted]
  | cons y ys ih =>
    rcases List.pairwise_cons.mp h with ⟨hy, hys⟩
    simp only [sf_insert_sorted]
    split_ifs with hxy
    · refine List.Pairwise.cons ?_ h
      intro z hz
      rcases List.mem_cons.mp hz with rfl | hz
      · exact hxy
      · exact sf_entry_cmp_trans x y z hx (hl y (by simp))
          (hl z (by simp [hz])) hxy (hy z hz)
    · refine List.Pairwise.cons ?_ (ih (fun e he => hl e (by simp [he])) hys)
      intro z hz
      rcases (mem_sf_insert_sorted x z ys).mp hz with rfl | hz
      · rcases sf_entry_cmp_total z y with hc | hc
        · exact absurd hc hxy
        · exact hc
      · exact hy z hz

theorem sf_qsort_pairwise (l : List Entry) (hl : ∀ e ∈ l, sf_no_link e) :
    (sf_qsort l).Pairwise (fun a b => sf_entry_cmp a b ≤ 0) := by
  induction l with
  | nil => simp [sf_qsort]
  | cons x xs ih =>
    have hx : sf_no_link x := hl x (by simp)
    have hxs : ∀ e ∈ xs, sf_no_link e := fun e he => hl e (by simp [he])
    have hsorted : ∀ e ∈ sf_qsort xs, sf_no_link e := fun e he =>
      hxs e ((sf_qsort_perm xs).mem_iff.mp he)
    exact sf_insert_sorted_pairwise x (sf_qsort xs) hx hsorted (ih hxs)

/-- C5 (amended).  Restricted to listings that contain no Link and no
Unknown entries, `sf_entry_cmp` is a total order (total, transitive,
antisymmetric) and the sort is a permutation of its input, sorted by the
comparator, with every Directory preceding every File; same-category runs
are in (byte-wise modelled) `strcoll` name order by the comparator's
definition.  With Link or Unknown entries present the comparator falls
back to name-only comparison against everything and is not transitive
(see the counterexample), so no total order exists and the
directories-before-files split can be violated. -/
theorem sf_c5_sort_on_plain_entries (a b c : Entry) (l : List Entry)
    (ha : sf_no_link a) (hb : sf_no_link b) (hc : sf_no_link c)
    (hl : ∀ e ∈ l, sf_no_link e) :
    (sf_entry_cmp a b ≤ 0 ∨ sf_entry_cmp b a ≤ 0) ∧
    (sf_entry_cmp a b ≤ 0 → sf_entry_cmp b c ≤ 0 → sf_entry_cmp a c ≤ 0) ∧
    (sf_entry_cmp a b ≤ 0 → sf_entry_cmp b a ≤ 0 → a = b) ∧
    List.Perm (sf_qsort l) l ∧
    (sf_qsort l).Pairwise (fun x y => sf_entry_cmp x y ≤ 0) ∧
    (sf_qsort l).Pairwise
      (fun x y => ¬(x.etype = EntryType.file ∧ y.etype = EntryType.directory)) := by
  refine ⟨sf_entry_cmp_total a b,
    fun h1 h2 => sf_entry_cmp_trans a b c ha hb hc h1 h2,
    fun h1 h2 => sf_entry_cmp_antisymm a b ha hb h1 h2,
    sf_qsort_perm l,
    sf_qsort_pairwise l hl,
    (sf_qsort_pairwise l hl).imp ?_⟩
  intro x y hxy hfd
  rw [sf_entry_cmp_file_dir x y hfd.1 hfd.2] at hxy
  omega

/-- Witness for C5: the amended theorem applied to a concrete link-free
listing, whose sorted output puts the directory first. -/
theorem sf_c5_sort_on_plain_entries_witness :
    List.Perm (sf_qsort [⟨"b", EntryType.file⟩, ⟨"a", EntryType.directory⟩])
        [⟨"b", EntryType.file⟩, ⟨"a", EntryType.directory⟩] ∧
    (sf_qsort [⟨"b", EntryType.file⟩, ⟨"a", EntryType.directory⟩]).Pairwise
      (fun x y => ¬(x.etype = EntryType.file ∧ y.etype = EntryType.directory)) := by
  have h := sf_c5_sort_on_plain_entries ⟨"x", EntryType.file⟩
    ⟨"y", EntryType.file⟩ ⟨"z", EntryType.file⟩
    [⟨"b", EntryType.file⟩, ⟨"a", EntryType.directory⟩]
    (Or.inl rfl) (Or.inl rfl) (Or.inl rfl) (by decide)
  exact ⟨h.2.2.2.1, h.2.2.2.2.2⟩

/-- C7 (amended).  When `opendir` succeeds the lister's output never
contains the pseudo-entries `.` or `..`, and with `show_hidden` off it
contains no name whose first character is a dot.  When opening the path
fails, the output is not reset to the empty list: the caller's previous
count and buffer survive untouched (only the final unconditional `qsort`
runs over them). -/
theorem sf_c7_lister (fs : Fs) (sh : Bool) (p : FsPath)
    (prev raw : List Entry) :
    (fs p = some raw →
      (∀ e ∈ sf_get_entries fs sh p prev, e.name ≠ "." ∧ e.name ≠ "..") ∧
      (sh = false →
        ∀ e ∈ sf_get_entries fs sh p prev, sf_starts_with_dot e.name = false)) ∧
    (fs p = none → sf_get_entries fs sh p prev = sf_qsort prev) := by
  constructor
  · intro hsome
    have hmem : ∀ e ∈ sf_get_entries fs sh p prev,
        sf_is_valid_entry sh e.name = true := by
      intro e he
      unfold sf_get_entries at he
      rw [hsome] at he
      have := (mem_sf_qsort e _).mp he
      exact (List.mem_filter.mp this).2
    constructor
    · intro e he
      have hv := hmem e he
      unfold sf_is_valid_entry at hv
      simp only [Bool.and_eq_true, bne_iff_ne, ne_eq, decide_eq_true_eq] at hv
      tauto
    · intro hsh e he
      have hv := hmem e he
      subst hsh
      unfold sf_is_valid_entry at hv
      simp only [Bool.and_eq_true, Bool.false_or, Bool.not_eq_eq_eq_not,
        Bool.not_true] at hv
      simpa using hv.2
  · intro hnone
    unfold sf_get_entries
    rw [hnone]

/-- Witness for C7: the amended theorem applied to a concrete filesystem
and directory, evaluated at the one entry of the resulting listing. -/
theorem sf_c7_lister_witness :
    fsGhostDir ["a"] = some [⟨"d", EntryType.directory⟩] ∧
    (Entry.mk "d" EntryType.directory).name ≠ "." := by
  refine ⟨by decide, ?_⟩
  exact (((sf_c7_lister fsGhostDir false ["a"] [] [⟨"d", EntryType.directory⟩]).1
    (by decide)).1 ⟨"d", EntryType.directory⟩ (by decide)).1

/-! State and operation lemmas used by the navigation claims. -/

/-- Every view's path names an existing directory. -/
def pathsValid (fs : Fs) (s : SFState) : Prop :=
  ∀ j, j < s.views.length → (fs (s.viewAt j).path).isSome

/-- The process working directory equals the active view's path. -/
def cwdInv (s : SFState) : Prop := s.cwd = (s.viewAt s.current).path

theorem viewAt_putView_self (s : SFState) (i : Nat) (v : View)
    (h : i < s.views.length) : (s.putView i v).viewAt i = v := by
  unfold SFState.putView SFState.viewAt
  exact list_getD_set_self _ _ _ _ h

theorem viewAt_putView_ne (s : SFState) (i j : Nat) (v : View) (h : i ≠ j) :
    (s.putView i v).viewAt j = s.viewAt j := by
  unfold SFState.putView SFState.viewAt
  exact list_getD_set_ne _ _ _ _ _ h

theorem putView_length (s : SFState) (i : Nat) (v : View) :
    (s.putView i v).views.length = s.views.length := by
  simp [SFState.putView]

theorem sf_view_update_stacks_fields (v : View) :
    (sf_view_update_stacks v).path = v.path ∧
    (sf_view_update_stacks v).selected_entry = v.selected_entry ∧
    (sf_view_update_stacks v).entries = v.entries ∧
    (sf_view_update_stacks v).stack_size = sf_get_path_level v.path + 2 := by
  unfold sf_view_update_stacks
  dsimp only
  split_ifs <;> simp

theorem sf_side_view_set_path_skel (fs : Fs) (s : SFState) (t : FsPath) :
    (sf_side_view_set_path fs s t).views = s.views ∧
    (sf_side_view_set_path fs s t).current = s.current ∧
    (sf_side_view_set_path fs s t).show_hidden = s.show_hidden := by
  unfold sf_side_view_set_path
  cases h : fs t
  · exact ⟨rfl, rfl, rfl⟩
  · simp only [chdirTo]
    split_ifs <;> exact ⟨rfl, rfl, rfl⟩

theorem sf_side_view_set_path_cwd (fs : Fs) (s : SFState) (t : FsPath)
    (hcwd : cwdInv s) (hvis : (fs ((s.viewAt s.current).path)).isSome) :
    (sf_side_view_set_path fs s t).cwd = s.cwd := by
  unfold sf_side_view_set_path
  cases h : fs t
  · rfl
  · have hv : ∀ u : FsPath,
        (({ s with cwd := u } : SFState).viewAt s.current).path =
          (s.viewAt s.current).path := by
      intro u
      rfl
    simp only [chdirTo]
    split_ifs with hc
    · rw [hcwd]
      rfl
    · exact absurd hvis (by simpa using hc)

theorem sf_side_view_update_skel (fs : Fs) (s : SFState) (i : Nat) :
    (sf_side_view_update fs s i).views = s.views ∧
    (sf_side_view_update fs s i).current = s.current ∧
    (sf_side_view_update fs s i).show_hidden = s.show_hidden := by
  unfold sf_side_view_update
  dsimp only
  split_ifs
  · have h := sf_side_view_set_path_skel fs s
      ((s.viewAt i).path ++ [((sf_selected_deref (s.viewAt i)).getD default).name])
    exact ⟨h.1, h.2.1, h.2.2⟩
  · exact ⟨rfl, rfl, rfl⟩

theorem sf_side_view_update_cwd (fs : Fs) (s : SFState) (i : Nat)
    (hcwd : cwdInv s) (hvis : (fs ((s.viewAt s.current).path)).isSome) :
    (sf_side_view_update fs s i).cwd = s.cwd := by
  unfold sf_side_view_update
  dsimp only
  split_ifs
  · exact sf_side_view_set_path_cwd fs s _ hcwd hvis
  · rfl

theorem viewAt_congr (s1 s2 : SFState) (k : Nat) (h : s1.views = s2.views) :
    s1.viewAt k = s2.viewAt k := by
  unfold SFState.viewAt
  rw [h]

theorem side_update_putView_viewAt (fs : Fs) (s : SFState) (i : Nat) (v : View)
    (hi : i < s.views.length) :
    (sf_side_view_update fs (s.putView i v) i).viewAt i = v ∧
    (∀ k, k ≠ i → (sf_side_view_update fs (s.putView i v) i).viewAt k = s.viewAt k) ∧
    (sf_side_view_update fs (s.putView i v) i).current = s.current ∧
    (sf_side_view_update fs (s.putView i v) i).views.length = s.views.length ∧
    (sf_side_view_update fs (s.putView i v) i).show_hidden = s.show_hidden := by
  have hskel := sf_side_view_update_skel fs (s.putView i v) i
  refine ⟨?_, ?_, ?_, ?_, ?_⟩
  · rw [viewAt_congr _ _ i hskel.1]
    exact viewAt_putView_self s i v hi
  · intro k hk
    rw [viewAt_congr _ _ k hskel.1]
    exact viewAt_putView_ne s i k v (fun h => hk h.symm)
  · rw [hskel.2.1]
    rfl
  · rw [hskel.1]
    exact putView_length s i v
  · rw [hskel.2.2]
    rfl

theorem sf_view_set_selected_entry_def (fs : Fs) (s : SFState) (i idx : Nat) :
    sf_view_set_selected_entry fs s i idx =
      sf_side_view_update fs
        (s.putView i
          { sf_view_update_stacks { s.viewAt i with selected_entry := idx } with
              offset_stack :=
                (sf_view_update_stacks
                    { s.viewAt i with selected_entry := idx }).offset_stack.set
                  (sf_get_path_level
                      (sf_view_update_stacks
                        { s.viewAt i with selected_entry := idx }).path + 1)
                  0 }) i := rfl

theorem sf_view_set_selected_entry_spec (fs : Fs) (s : SFState) (i idx : Nat)
    (hi : i < s.views.length) :
    (sf_view_set_selected_entry fs s i idx).current = s.current ∧
    (sf_view_set_selected_entry fs s i idx).views.length = s.views.length ∧
    (sf_view_set_selected_entry fs s i idx).show_hidden = s.show_hidden ∧
    ((sf_view_set_selected_entry fs s i idx).viewAt i).path = (s.viewAt i).path ∧
    ((sf_view_set_selected_entry fs s i idx).viewAt i).entries =
      (s.viewAt i).entries ∧
    ((sf_view_set_selected_entry fs s i idx).viewAt i).selected_entry = idx ∧
    (∀ k, k ≠ i →
      (sf_view_set_selected_entry fs s i idx).viewAt k = s.viewAt k) := by
  rw [sf_view_set_selected_entry_def]
  obtain ⟨hp2, hs2, he2, _⟩ :=
    sf_view_update_stacks_fields { s.viewAt i with selected_entry := idx }
  obtain ⟨h1, h2, h3, h4, h5⟩ := side_update_putView_viewAt fs s i
    { sf_view_update_stacks { s.viewAt i with selected_entry := idx } with
        offset_stack :=
          (sf_view_update_stacks
              { s.viewAt i with selected_entry := idx }).offset_stack.set
            (sf_get_path_level
                (sf_view_update_stacks
                  { s.viewAt i with selected_entry := idx }).path + 1)
            0 } hi
  refine ⟨h3, h4, h5, ?_, ?_, ?_, h2⟩
  · rw [h1]
    simpa using hp2
  · rw [h1]
    simpa using he2
  · rw [h1]
    simpa using hs2

theorem sf_view_set_selected_entry_cwd (fs : Fs) (s : SFState) (i idx : Nat)
    (hi : i < s.views.length) (hcwd : cwdInv s)
    (hvis : (fs ((s.viewAt s.current).path)).isSome) :
    (sf_view_set_selected_entry fs s i idx).cwd = s.cwd := by
  rw [sf_view_set_selected_entry_def]
  obtain ⟨hp2, _, _, _⟩ :=
    sf_view_update_stacks_fields { s.viewAt i with selected_entry := idx }
  have hpath : ∀ v : View,
      v.path = (s.viewAt i).path →
      (((s.putView i v).viewAt (s.putView i v).current).path) =
        ((s.viewAt s.current).path) := by
    intro v hv
    by_cases hci : s.current = i
    · have : (s.putView i v).current = s.current := rfl
      rw [this, hci, viewAt_putView_self s i v hi, hv]
    · have : (s.putView i v).current = s.current := rfl
      rw [this, viewAt_putView_ne s i s.current v (fun h => hci h.symm)]
  have hv3 :
      ({ sf_view_update_stacks { s.viewAt i with selected_entry := idx } with
          offset_stack :=
            (sf_view_update_stacks
                { s.viewAt i with selected_entry := idx }).offset_stack.set
              (sf_get_path_level
                  (sf_view_update_stacks
                    { s.viewAt i with selected_entry := idx }).path + 1)
              0 } : View).path = (s.viewAt i).path := by
    simpa using hp2
  have h := sf_side_view_update_cwd fs
    (s.putView i
      { sf_view_update_stacks { s.viewAt i with selected_entry := idx } with
          offset_stack :=
            (sf_view_update_stacks
                { s.viewAt i with selected_entry := idx }).offset_stack.set
              (sf_get_path_level
                  (sf_view_update_stacks
                    { s.viewAt i with selected_entry := idx }).path + 1)
              0 }) i
    (by
      unfold cwdInv at hcwd ⊢
      rw [hpath _ hv3]
      exact hcwd)
    (by rw [hpath _ hv3]; exact hvis)
  rw [h]
  rfl

theorem chdirTo_skel (fs : Fs) (s : SFState) (p : FsPath) :
    (chdirTo fs s p).views = s.views ∧
    (chdirTo fs s p).current = s.current ∧
    (chdirTo fs s p).show_hidden = s.show_hidden := by
  unfold chdirTo
  split_ifs <;> exact ⟨rfl, rfl, rfl⟩

theorem chdirTo_cwd (fs : Fs) (s : SFState) (p : FsPath)
    (h : (fs p).isSome) : (chdirTo fs s p).cwd = p := by
  unfold chdirTo
  rw [if_pos h]

theorem sf_get_entries_of_isSome (fs : Fs) (sh : Bool) (p : FsPath)
    (prev raw : List Entry) (h : fs p = some raw) :
    sf_get_entries fs sh p prev = sf_listing fs sh p := by
  unfold sf_listing sf_get_entries
  rw [h]

theorem sf_view_update_entries_spec (fs : Fs) (s : SFState) (i : Nat)
    (hi : i < s.views.length) :
    (sf_view_update_entries fs s i).current = s.current ∧
    (sf_view_update_entries fs s i).views.length = s.views.length ∧
    (sf_view_update_entries fs s i).show_hidden = s.show_hidden ∧
    ((sf_view_update_entries fs s i).viewAt i).path = (s.viewAt i).path ∧
    ((sf_view_update_entries fs s i).viewAt i).entries =
      sf_get_entries fs s.show_hidden s.cwd (s.viewAt i).entries ∧
    ((sf_get_entries fs s.show_hidden s.cwd (s.viewAt i).entries).length ≤ 1 →
      ((sf_view_update_entries fs s i).viewAt i).selected_entry = 0) ∧
    (∀ k, k ≠ i → (sf_view_update_entries fs s i).viewAt k = s.viewAt k) := by
  unfold sf_view_update_entries
  dsimp only
  split_ifs with hle
  · have hi1 : i < (s.putView i
        { s.viewAt i with
            entries := sf_get_entries fs s.show_hidden s.cwd
              (s.viewAt i).entries }).views.length := by
      rw [putView_length]
      exact hi
    obtain ⟨h1, h2, h3, h4, h5, h6, h7⟩ :=
      sf_view_set_selected_entry_spec fs
        (s.putView i
          { s.viewAt i with
              entries := sf_get_entries fs s.show_hidden s.cwd
                (s.viewAt i).entries }) i 0 hi1
    refine ⟨h1, by rw [h2, putView_length], h3, ?_, ?_, fun _ => h6, ?_⟩
    · rw [h4, viewAt_putView_self _ _ _ hi]
    · rw [h5, viewAt_putView_self _ _ _ hi]
    · intro k hk
      rw [h7 k hk, viewAt_putView_ne _ _ _ _ (fun h => hk h.symm)]
  · refine ⟨rfl, putView_length s i _, rfl, ?_, ?_, fun h => absurd h hle, ?_⟩
    · rw [viewAt_putView_self _ _ _ hi]
    · rw [viewAt_putView_self _ _ _ hi]
    · intro k hk
      rw [viewAt_putView_ne _ _ _ _ (fun h => hk h.symm)]

theorem sf_view_update_entries_cwd (fs : Fs) (s : SFState) (i : Nat)
    (hi : i < s.views.length) (hcwd : cwdInv s)
    (hvis : (fs ((s.viewAt s.current).path)).isSome) :
    (sf_view_update_entries fs s i).cwd = s.cwd := by
  unfold sf_view_update_entries
  dsimp only
  split_ifs with hle
  · have hi1 : i < (s.putView i
        { s.viewAt i with
            entries := sf_get_entries fs s.show_hidden s.cwd
              (s.viewAt i).entries }).views.length := by
      rw [putView_length]
      exact hi
    have hap : (((s.putView i
        { s.viewAt i with
            entries := sf_get_entries fs s.show_hidden s.cwd
              (s.viewAt i).entries }).viewAt
          (s.putView i
            { s.viewAt i with
                entries := sf_get_entries fs s.show_hidden s.cwd
                  (s.viewAt i).entries }).current).path) =
        (s.viewAt s.current).path := by
      by_cases hci : s.current = i
      · have hcur : (s.putView i
            { s.viewAt i with
                entries := sf_get_entries fs s.show_hidden s.cwd
                  (s.viewAt i).entries }).current = s.current := rfl
        rw [hcur, hci, viewAt_putView_self _ _ _ hi]
      · have hcur : (s.putView i
            { s.viewAt i with
                entries := sf_get_entries fs s.show_hidden s.cwd
                  (s.viewAt i).entries }).current = s.current := rfl
        rw [hcur, viewAt_putView_ne s i s.current _ (fun h => hci h.symm)]
    have h := sf_view_set_selected_entry_cwd fs
      (s.putView i
        { s.viewAt i with
            entries := sf_get_entries fs s.show_hidden s.cwd
              (s.viewAt i).entries }) i 0 hi1
      (by unfold cwdInv at hcwd ⊢; rw [hap]; exact hcwd)
      (by rw [hap]; exact hvis)
    rw [h]
    rfl
  · rfl

theorem sf_set_path_tail_spec (fs : Fs) (s2 : SFState) (i : Nat)
    (hi : i < s2.views.length) :
    (sf_set_path_tail fs s2 i).current = s2.current ∧
    (sf_set_path_tail fs s2 i).views.length = s2.views.length ∧
    (sf_set_path_tail fs s2 i).show_hidden = s2.show_hidden ∧
    ((sf_set_path_tail fs s2 i).viewAt i).path = (s2.viewAt i).path ∧
    ((sf_set_path_tail fs s2 i).viewAt i).entries =
      sf_get_entries fs s2.show_hidden s2.cwd (s2.viewAt i).entries ∧
    ((sf_get_entries fs s2.show_hidden s2.cwd (s2.viewAt i).entries).length ≤ 1 →
      ((sf_set_path_tail fs s2 i).viewAt i).selected_entry = 0) ∧
    ((sf_set_path_tail fs s2 i).viewAt i).stack_size =
      (s2.viewAt i).path.length + 2 ∧
    (∀ k, k ≠ i → (sf_set_path_tail fs s2 i).viewAt k = s2.viewAt k) ∧
    ((fs (((sf_set_path_tail fs s2 i).viewAt s2.current).path)).isSome →
      (sf_set_path_tail fs s2 i).cwd =
        ((sf_set_path_tail fs s2 i).viewAt s2.current).path) := by
  obtain ⟨e1, e2, e3, e4, e5, e6, e7⟩ := sf_view_update_entries_spec fs s2 i hi
  have hi3 : i < (sf_view_update_entries fs s2 i).views.length := by
    rw [e2]
    exact hi
  obtain ⟨f1, f2, f3, f4⟩ :=
    sf_view_update_stacks_fields ((sf_view_update_entries fs s2 i).viewAt i)
  unfold sf_set_path_tail
  dsimp only
  set s3 := sf_view_update_entries fs s2 i with hs3
  set v4 := sf_view_update_stacks (s3.viewAt i) with hv4
  set s4 := s3.putView i v4 with hs4
  obtain ⟨c1, c2, c3⟩ := chdirTo_skel fs s4 ((s4.viewAt s4.current).path)
  have hva : ∀ k, (chdirTo fs s4 ((s4.viewAt s4.current).path)).viewAt k =
      s4.viewAt k := fun k => viewAt_congr _ _ k c1
  have hs4i : s4.viewAt i = v4 := viewAt_putView_self s3 i v4 hi3
  have hs4k : ∀ k, k ≠ i → s4.viewAt k = s2.viewAt k := by
    intro k hk
    rw [viewAt_putView_ne s3 i k v4 (fun h => hk h.symm)]
    exact e7 k hk
  have hs4cur : s4.current = s2.current := e1
  have hs4sh : s4.show_hidden = s2.show_hidden := e3
  have hs4len : s4.views.length = s2.views.length := by
    rw [putView_length]
    exact e2
  refine ⟨by rw [c2]; exact hs4cur, by rw [c1]; exact hs4len,
    by rw [c3]; exact hs4sh, ?_, ?_, ?_, ?_, ?_, ?_⟩
  · rw [hva i, hs4i, f1, e4]
  · rw [hva i, hs4i, f3, e5]
  · intro hle
    rw [hva i, hs4i, f2]
    exact e6 hle
  · rw [hva i, hs4i, f4, e4]
    rfl
  · intro k hk
    rw [hva k]
    exact hs4k k hk
  · intro hsome
    rw [hva s2.current] at hsome ⊢
    rw [← hs4cur] at hsome ⊢
    exact chdirTo_cwd fs s4 _ hsome

theorem sf_view_set_path_none (fs : Fs) (s : SFState) (i : Nat)
    (target : FsPath) (h : fs target = none) :
    sf_view_set_path fs s i target = s := by
  unfold sf_view_set_path
  rw [h]

theorem sf_view_set_path_eq_tail (fs : Fs) (s : SFState) (i : Nat)
    (target : FsPath) (raw : List Entry) (hsome : fs target = some raw) :
    sf_view_set_path fs s i target =
      sf_set_path_tail fs
        (SFState.putView { s with cwd := target } i
          { SFState.viewAt { s with cwd := target } i with path := target }) i := by
  unfold sf_view_set_path
  rw [hsome]

theorem sf_view_set_path_spec (fs : Fs) (s : SFState) (i : Nat)
    (target : FsPath) (raw : List Entry) (hsome : fs target = some raw)
    (hi : i < s.views.length) :
    (sf_view_set_path fs s i target).current = s.current ∧
    (sf_view_set_path fs s i target).views.length = s.views.length ∧
    (sf_view_set_path fs s i target).show_hidden = s.show_hidden ∧
    ((sf_view_set_path fs s i target).viewAt i).path = target ∧
    ((sf_view_set_path fs s i target).viewAt i).entries =
      sf_listing fs s.show_hidden target ∧
    ((sf_listing fs s.show_hidden target).length ≤ 1 →
      ((sf_view_set_path fs s i target).viewAt i).selected_entry = 0) ∧
    ((sf_view_set_path fs s i target).viewAt i).stack_size =
      target.length + 2 ∧
    (∀ k, k ≠ i → (sf_view_set_path fs s i target).viewAt k = s.viewAt k) ∧
    ((fs (((sf_view_set_path fs s i target).viewAt s.current).path)).isSome →
      (sf_view_set_path fs s i target).cwd =
        ((sf_view_set_path fs s i target).viewAt s.current).path) := by
  rw [sf_view_set_path_eq_tail fs s i target raw hsome]
  have hi2 : i < (SFState.putView { s with cwd := target } i
      { SFState.viewAt { s with cwd := target } i with path := target
      }).views.length := by
    rw [putView_length]
    exact hi
  obtain ⟨t1, t2, t3, t4, t5, t6, t7, t8, t9⟩ := sf_set_path_tail_spec fs
    (SFState.putView { s with cwd := target } i
      { SFState.viewAt { s with cwd := target } i with path := target }) i hi2
  have hvi : (SFState.putView { s with cwd := target } i
      { SFState.viewAt { s with cwd := target } i with path := target }).viewAt i =
      { SFState.viewAt { s with cwd := target } i with path := target } :=
    viewAt_putView_self _ i _ hi
  have hvk : ∀ k, k ≠ i → (SFState.putView { s with cwd := target } i
      { SFState.viewAt { s with cwd := target } i with path := target }).viewAt k =
      s.viewAt k := by
    intro k hk
    rw [viewAt_putView_ne _ i k _ (fun h => hk h.symm)]
    rfl
  have hlist : sf_get_entries fs s.show_hidden target
      (SFState.viewAt { s with cwd := target } i).entries =
      sf_listing fs s.show_hidden target :=
    sf_get_entries_of_isSome fs s.show_hidden target _ raw hsome
  refine ⟨t1, by rw [t2, putView_length], t3, ?_, ?_, ?_, ?_, ?_, ?_⟩
  · rw [t4, hvi]
  · rw [t5, hvi]
    exact hlist
  · intro hle
    apply t6
    rw [hvi]
    exact hlist.symm ▸ hle
  · rw [t7, hvi]
  · intro k hk
    rw [t8 k hk]
    exact hvk k hk
  · exact t9

theorem chdirTo_side (fs : Fs) (s : SFState) (p : FsPath) :
    (chdirTo fs s p).side = s.side := by
  unfold chdirTo
  split_ifs <;> rfl

theorem sf_side_view_set_path_side_some (fs : Fs) (s : SFState)
    (t : FsPath) (raw : List Entry) (hsome : fs t = some raw) :
    (sf_side_view_set_path fs s t).side.path = t ∧
    (sf_side_view_set_path fs s t).side.entries =
      sf_get_entries fs s.show_hidden t s.side.entries := by
  unfold sf_side_view_set_path
  rw [hsome]
  dsimp only
  rw [chdirTo_side]
  exact ⟨rfl, rfl⟩

theorem sf_side_view_set_path_of_none (fs : Fs) (s : SFState)
    (t : FsPath) (hnone : fs t = none) :
    sf_side_view_set_path fs s t = s := by
  unfold sf_side_view_set_path
  rw [hnone]

/-- C3.  `sf_view_set_path` with an inaccessible target is a complete
no-op (in particular its path, entries, entry count and selection are
unchanged, and there is no error channel); with an accessible target the
path becomes the (canonical) target, the entries are re-listed there with
the current show-hidden setting, and when the new listing has at most one
element the selection is clamped to 0. -/
theorem sf_c3_set_path_noop_or_reload (fs : Fs) (s : SFState) (i : Nat)
    (target : FsPath) (hi : i < s.views.length) :
    (fs target = none → sf_view_set_path fs s i target = s) ∧
    (∀ raw, fs target = some raw →
      ((sf_view_set_path fs s i target).viewAt i).path = target ∧
      ((sf_view_set_path fs s i target).viewAt i).entries =
        sf_listing fs s.show_hidden target ∧
      ((sf_listing fs s.show_hidden target).length ≤ 1 →
        ((sf_view_set_path fs s i target).viewAt i).selected_entry = 0)) := by
  refine ⟨fun h => sf_view_set_path_none fs s i target h, fun raw hsome => ?_⟩
  obtain ⟨_, _, _, h4, h5, h6, _, _, _⟩ :=
    sf_view_set_path_spec fs s i target raw hsome hi
  exact ⟨h4, h5, h6⟩

/-- Witness for C3: both branches evaluated on a concrete filesystem — a
nonexistent target leaves the state untouched, an existing empty target
resets the selection to 0. -/
theorem sf_c3_set_path_noop_or_reload_witness :
    sf_view_set_path fsRoundTrip stRoundTrip 0 ["zz"] = stRoundTrip ∧
    ((sf_view_set_path fsRoundTrip stRoundTrip 0 ["a", "b"]).viewAt 0).path =
      ["a", "b"] ∧
    ((sf_view_set_path fsRoundTrip stRoundTrip 0
        ["a", "b"]).viewAt 0).selected_entry = 0 := by
  refine ⟨(sf_c3_set_path_noop_or_reload fsRoundTrip stRoundTrip 0 ["zz"]
      (by decide)).1 (by decide),
    ((sf_c3_set_path_noop_or_reload fsRoundTrip stRoundTrip 0 ["a", "b"]
      (by decide)).2 [] (by decide)).1,
    ((sf_c3_set_path_noop_or_reload fsRoundTrip stRoundTrip 0 ["a", "b"]
      (by decide)).2 [] (by decide)).2.2 (by decide)⟩

/-- C8.  Starting from a state where every view's path exists and the
working directory equals the active view's path, every path-changing
operation — `sf_view_set_path` on any view, `sf_side_view_set_path`, and
`sf_set_view` — re-establishes "working directory = active view's path",
so a background view's or the preview's traversal never leaks into the
ambient directory; `sf_view_set_path` also keeps every view's path
existing. -/
theorem sf_c8_cwd_tracks_active_view (fs : Fs) (s : SFState)
    (hval : pathsValid fs s) (hcwd : cwdInv s)
    (hcur : s.current < s.views.length) :
    (∀ i target, i < s.views.length →
      cwdInv (sf_view_set_path fs s i target) ∧
      pathsValid fs (sf_view_set_path fs s i target)) ∧
    (∀ target, cwdInv (sf_side_view_set_path fs s target)) ∧
    (∀ i, i < s.views.length → cwdInv (sf_set_view fs s i)) := by
  refine ⟨?_, ?_, ?_⟩
  · intro i target hi
    cases hfs : fs target with
    | none =>
      rw [sf_view_set_path_none fs s i target hfs]
      exact ⟨hcwd, hval⟩
    | some raw =>
      obtain ⟨h1, h2, _, h4, _, _, _, h8, h9⟩ :=
        sf_view_set_path_spec fs s i target raw hfs hi
      have hvalr : pathsValid fs (sf_view_set_path fs s i target) := by
        intro j hj
        rw [h2] at hj
        by_cases hji : j = i
        · subst hji
          rw [h4, hfs]
          rfl
        · rw [h8 j hji]
          exact hval j hj
      have hsome : (fs (((sf_view_set_path fs s i target).viewAt
          s.current).path)).isSome := by
        have hc : s.current < (sf_view_set_path fs s i target).views.length := by
          rw [h2]
          exact hcur
        exact hvalr s.current hc
      refine ⟨?_, hvalr⟩
      unfold cwdInv
      rw [h1]
      exact h9 hsome
  · intro target
    obtain ⟨k1, k2, _⟩ := sf_side_view_set_path_skel fs s target
    have h := sf_side_view_set_path_cwd fs s target hcwd (hval s.current hcur)
    unfold cwdInv
    rw [h, k2, viewAt_congr _ _ s.current k1]
    exact hcwd
  · intro i hi
    have hdef : sf_set_view fs s i =
        sf_side_view_update fs
          (chdirTo fs { s with current := i }
            ((SFState.viewAt { s with current := i } i).path)) i := rfl
    rw [hdef]
    have hvis : (fs ((SFState.viewAt { s with current := i } i).path)).isSome :=
      hval i hi
    obtain ⟨c1, c2, _⟩ := chdirTo_skel fs { s with current := i }
      ((SFState.viewAt { s with current := i } i).path)
    have hcwd2 : cwdInv (chdirTo fs { s with current := i }
        ((SFState.viewAt { s with current := i } i).path)) := by
      unfold cwdInv
      rw [chdirTo_cwd _ _ _ hvis, c2, viewAt_congr _ _ _ c1]
    have hvis2 : (fs (((chdirTo fs { s with current := i }
        ((SFState.viewAt { s with current := i } i).path)).viewAt
          (chdirTo fs { s with current := i }
            ((SFState.viewAt { s with current := i } i).path)).current).path)).isSome := by
      rw [c2, viewAt_congr _ _ _ c1]
      exact hvis
    obtain ⟨u1, u2, _⟩ := sf_side_view_update_skel fs
      (chdirTo fs { s with current := i }
        ((SFState.viewAt { s with current := i } i).path)) i
    have hu := sf_side_view_update_cwd fs
      (chdirTo fs { s with current := i }
        ((SFState.viewAt { s with current := i } i).path)) i hcwd2 hvis2
    unfold cwdInv
    rw [hu, u2, viewAt_congr _ _ _ u1]
    exact hcwd2

/-- Witness for C8: switching to view 0 on a concrete state leaves the
working directory equal to the active view's path. -/
theorem sf_c8_cwd_tracks_active_view_witness :
    cwdInv (sf_set_view fsRoundTrip stRoundTrip 0) := by
  refine (sf_c8_cwd_tracks_active_view fsRoundTrip stRoundTrip ?_ rfl
    (by decide)).2.2 0 (by decide)
  intro j hj
  have hj0 : j = 0 := by
    simp [stRoundTrip] at hj
    omega
  subst hj0
  decide

/-- C2 (amended).  `sf_view_update_stacks` runs before every read or write
of slot `depth + 1`, and afterwards `stack_size` is exactly
`depth(path) + 2` (so the slot `depth + 1` access is in range), the
allocation holds at least `stack_size` slots, and every slot grown past
the previous `stack_size` is zero.  The size is, however, recomputed to
`depth + 2` on every update rather than growing monotonically: ascending
shrinks `stack_size`, and the next regrow `realloc`s the allocation down
(see the counterexample). -/
theorem sf_c2_stack_grow_before_use (v : View)
    (hlen : v.stack_size ≤ v.offset_stack.length) :
    (sf_view_update_stacks v).stack_size = sf_get_path_level v.path + 2 ∧
    sf_get_path_level v.path + 1 < (sf_view_update_stacks v).stack_size ∧
    (sf_view_update_stacks v).stack_size ≤
      (sf_view_update_stacks v).offset_stack.length ∧
    (∀ j, v.stack_size ≤ j → j < (sf_view_update_stacks v).stack_size →
      (sf_view_update_stacks v).offset_stack.getD j 1 = 0) := by
  unfold sf_view_update_stacks
  dsimp only
  split_ifs with hgrow
  · refine ⟨rfl, ?_, ?_, ?_⟩
    · show sf_get_path_level v.path + 1 < sf_get_path_level v.path + 2
      omega
    · show sf_get_path_level v.path + 2 ≤
        (v.offset_stack.take v.stack_size ++
          List.replicate (sf_get_path_level v.path + 2 - v.stack_size) 0).length
      simp only [List.length_append, List.length_take, List.length_replicate]
      omega
    · intro j hj1 hj2
      have hj2n : j < sf_get_path_level v.path + 2 := hj2
      show (v.offset_stack.take v.stack_size ++
        List.replicate (sf_get_path_level v.path + 2 - v.stack_size) 0).getD j 1 = 0
      have hto : (v.offset_stack.take v.stack_size).length = v.stack_size := by
        simp only [List.length_take]
        omega
      rw [List.getD_eq_getElem?_getD,
        List.getElem?_append_right (by rw [hto]; exact hj1), hto,
        List.getElem?_replicate, if_pos (by omega)]
      rfl
  · refine ⟨rfl, ?_, ?_, ?_⟩
    · show sf_get_path_level v.path + 1 < sf_get_path_level v.path + 2
      omega
    · show sf_get_path_level v.path + 2 ≤ v.offset_stack.length
      omega
    · intro j hj1 hj2
      have hj2n : j < sf_get_path_level v.path + 2 := hj2
      omega

/-- Witness for C2: the amended theorem applied to a concrete view that is
about to grow its stack from 3 to 4 slots. -/
theorem sf_c2_stack_grow_before_use_witness :
    (sf_view_update_stacks
      { path := ["a", "b"], selected_entry := 0, entries := [],
        offset_stack := [7, 7, 7], stack_size := 3 }).stack_size =
      sf_get_path_level (["a", "b"] : FsPath) + 2 ∧
    (sf_view_update_stacks
      { path := ["a", "b"], selected_entry := 0, entries := [],
        offset_stack := [7, 7, 7], stack_size := 3 }).offset_stack.getD 3 1 = 0 := by
  have h := sf_c2_stack_grow_before_use
    { path := ["a", "b"], selected_entry := 0, entries := [],
      offset_stack := [7, 7, 7], stack_size := 3 } (by decide)
  exact ⟨h.1, h.2.2.2 3 (by decide) (by rw [h.1]; decide)⟩

/-- C6 (amended).  Syncing the preview from the active view's selection:
when the selected entry is classified Directory, `has_dir` is set
unconditionally — even when the directory cannot be listed, in which case
the preview keeps its previous (stale) path and entries while still being
marked active; on success the preview's path and entries mirror the
selected directory's listing.  When the selection is not a Directory, only
`has_dir` is cleared: the old entries are left in place, not cleared. -/
theorem sf_c6_preview_sync (fs : Fs) (s : SFState) :
    (((sf_selected_deref (s.viewAt s.current)).getD default).etype =
        EntryType.directory →
      (sf_side_view_update fs s s.current).side.has_dir = true ∧
      (∀ raw, fs ((s.viewAt s.current).path ++
          [((sf_selected_deref (s.viewAt s.current)).getD default).name]) =
            some raw →
        (sf_side_view_update fs s s.current).side.path =
          (s.viewAt s.current).path ++
            [((sf_selected_deref (s.viewAt s.current)).getD default).name] ∧
        (sf_side_view_update fs s s.current).side.entries =
          sf_listing fs s.show_hidden
            ((s.viewAt s.current).path ++
              [((sf_selected_deref (s.viewAt s.current)).getD default).name])) ∧
      (fs ((s.viewAt s.current).path ++
          [((sf_selected_deref (s.viewAt s.current)).getD default).name]) =
            none →
        (sf_side_view_update fs s s.current).side.path = s.side.path ∧
        (sf_side_view_update fs s s.current).side.entries = s.side.entries)) ∧
    (((sf_selected_deref (s.viewAt s.current)).getD default).etype ≠
        EntryType.directory →
      (sf_side_view_update fs s s.current).side.has_dir = false ∧
      (sf_side_view_update fs s s.current).side.path = s.side.path ∧
      (sf_side_view_update fs s s.current).side.entries = s.side.entries) := by
  unfold sf_side_view_update
  dsimp only
  split_ifs with hdir
  · refine ⟨fun _ => ⟨rfl, ?_, ?_⟩, fun h => absurd hdir h⟩
    · intro raw hsome
      obtain ⟨hp, he⟩ := sf_side_view_set_path_side_some fs s _ raw hsome
      rw [sf_get_entries_of_isSome fs s.show_hidden _ _ raw hsome] at he
      exact ⟨hp, he⟩
    · intro hnone
      rw [sf_side_view_set_path_of_none fs s _ hnone]
      exact ⟨rfl, rfl⟩
  · exact ⟨fun h => absurd h hdir, fun _ => ⟨rfl, rfl, rfl⟩⟩

/-- Witness for C6: the amended theorem applied to the concrete ghost
directory state — the sync marks the stale preview active. -/
theorem sf_c6_preview_sync_witness :
    (sf_side_view_update fsGhostDir stGhostDir stGhostDir.current).side.has_dir =
      true ∧
    (sf_side_view_update fsGhostDir stGhostDir stGhostDir.current).side.entries =
      stGhostDir.side.entries := by
  have h := (sf_c6_preview_sync fsGhostDir stGhostDir).1 (by decide)
  exact ⟨h.1, (h.2.2 (by decide)).2⟩

theorem sf_wait_loop_skips (pre rest : List WaitResult) (pid : Nat)
    (hpre : ∀ w ∈ pre, w = WaitResult.interrupted) :
    sf_wait_loop (pre ++ WaitResult.exited pid :: rest) =
      some (pre.length + 1) := by
  induction pre with
  | nil => rfl
  | cons w ws ih =>
    have hw : w = WaitResult.interrupted := hpre w (by simp)
    subst hw
    have := ih (fun x hx => hpre x (by simp [hx]))
    simp only [List.cons_append, sf_wait_loop, Option.map_some, List.length_cons,
      List.append_eq]
    rw [this]
    rfl

/-- C9.  Without `SF_FLAG_NOWAIT` the parent's loop re-issues `waitpid`
on every `-1` (interruption is never treated as failure) and returns
exactly when the child's exit is observed, having made one call per
interruption plus the final successful one; a failed `execvp` makes only
the child path exit, with status 1 — distinguishable from a successful
child's 0 — while `sf_spawn` touches no navigation state at all. -/
theorem sf_c9_spawn_wait_and_launch_failure (flags : Nat) (s : SFState)
    (pre rest : List WaitResult) (pid : Nat)
    (hblock : flags &&& SF_FLAG_NOWAIT = 0)
    (hpre : ∀ w ∈ pre, w = WaitResult.interrupted) :
    sf_spawn_parent_wait_count flags
        (pre ++ WaitResult.exited pid :: rest) = some (pre.length + 1) ∧
    sf_spawn_child_exit_code false = some 1 ∧
    sf_spawn_child_exit_code true = none ∧
    sf_spawn_child_exit_code false ≠ some 0 ∧
    sf_spawn_nav_state s = s := by
  refine ⟨?_, rfl, rfl, by decide, rfl⟩
  unfold sf_spawn_parent_wait_count
  rw [if_neg (by simp [hblock])]
  exact sf_wait_loop_skips pre rest pid hpre

/-- Witness for C9: a blocking spawn (terminal hand-off flags, as the
editor uses) whose wait is interrupted twice before the exit is reaped. -/
theorem sf_c9_spawn_wait_and_launch_failure_witness :
    sf_spawn_parent_wait_count SF_FLAG_TERM
        ([WaitResult.interrupted, WaitResult.interrupted] ++
          WaitResult.exited 7 :: []) = some 3 ∧
    sf_spawn_child_exit_code false = some 1 := by
  have h := sf_c9_spawn_wait_and_launch_failure SF_FLAG_TERM stEmptyRoot
    [WaitResult.interrupted, WaitResult.interrupted] [] 7 (by decide) (by decide)
  exact ⟨h.1, h.2.1⟩

/-- C10.  The dereference `entries[selected_entry]` performed (without any
emptiness check) by `sf_side_view_update`, `SF_KEY_FORWARD`, `SF_KEY_OPEN`
and `SF_KEY_EDIT` — all four are defined directly on `sf_selected_deref` —
is in bounds exactly under the precondition `selected_entry < entry_count`
(in particular `entry_count > 0`); on an empty listing it indexes a
zero-length array (`none` in the model, undefined behaviour in C).  The
open and edit handlers build their argv from that unchecked read. -/
theorem sf_c10_unchecked_selected_deref (s : SFState) :
    ((s.viewAt s.current).entries = [] →
      sf_selected_deref (s.viewAt s.current) = none) ∧
    ((s.viewAt s.current).selected_entry < (s.viewAt s.current).entries.length →
      (sf_selected_deref (s.viewAt s.current)).isSome) ∧
    ((s.viewAt s.current).entries.length ≤ (s.viewAt s.current).selected_entry →
      sf_selected_deref (s.viewAt s.current) = none) ∧
    sf_key_edit s =
      [SF_EDITOR, sf_path_string (s.cwd ++
        [((sf_selected_deref (s.viewAt s.current)).getD default).name])] ∧
    sf_key_open s =
      (if ((sf_selected_deref (s.viewAt s.current)).getD default).etype =
          EntryType.file then
        some [SF_OPENER, sf_path_string (s.cwd ++
          [((sf_selected_deref (s.viewAt s.current)).getD default).name])]
      else none) := by
  refine ⟨?_, ?_, ?_, rfl, rfl⟩
  · intro h
    unfold sf_selected_deref
    rw [h]
    rfl
  · intro h
    unfold sf_selected_deref
    rw [List.get?_eq_getElem?, List.getElem?_eq_getElem h]
    rfl
  · intro h
    unfold sf_selected_deref
    rw [List.get?_eq_getElem?, List.getElem?_eq_none h]

/-- Witness for C10: on the concrete empty-root state the dereference the
four operations perform is out of bounds. -/
theorem sf_c10_unchecked_selected_deref_witness :
    sf_selected_deref (stEmptyRoot.viewAt stEmptyRoot.current) = none :=
  (sf_c10_unchecked_selected_deref stEmptyRoot).1 rfl

theorem sf_get_top_dir_concat (p : FsPath) (D : String) :
    sf_get_top_dir (p ++ [D]) = D := by
  unfold sf_get_top_dir
  rw [List.getLast?_concat]
  rfl

theorem sf_selected_deref_getD (v : View) :
    (sf_selected_deref v).getD default =
      v.entries.getD v.selected_entry default := by
  unfold sf_selected_deref
  rw [List.get?_eq_getElem?, ← List.getD_eq_getElem?_getD]

theorem sf_backward_scan_spec (fs : Fs) (L : List Entry) (nme : String)
    (t : SFState) (n : Nat) (hcur : t.current < t.views.length)
    (hentries : (t.viewAt t.current).entries = L) :
    (sf_backward_scan fs L nme t n).current = t.current ∧
    (sf_backward_scan fs L nme t n).views.length = t.views.length ∧
    ((sf_backward_scan fs L nme t n).viewAt t.current).path =
      (t.viewAt t.current).path ∧
    ((sf_backward_scan fs L nme t n).viewAt t.current).entries = L ∧
    ((∀ j, j < n → (L.getD j default).name ≠ nme) →
      ((sf_backward_scan fs L nme t n).viewAt t.current).selected_entry =
        (t.viewAt t.current).selected_entry) ∧
    (∀ k, k < n → (L.getD k default).name = nme →
      (∀ j, j < n → j ≠ k → (L.getD j default).name ≠ nme) →
      ((sf_backward_scan fs L nme t n).viewAt t.current).selected_entry = k) := by
  induction n with
  | zero =>
    refine ⟨rfl, rfl, rfl, hentries, fun _ => rfl, ?_⟩
    intro k hk
    exact absurd hk (Nat.not_lt_zero k)
  | succ n ih =>
    obtain ⟨i1, i2, i3, i4, i5, i6⟩ := ih
    have hstep : sf_backward_scan fs L nme t (n + 1) =
        (fun acc i =>
          if (L.getD i default).name = nme then
            sf_view_set_selected_entry fs acc acc.current i
          else acc) (sf_backward_scan fs L nme t n) n := by
      unfold sf_backward_scan
      rw [List.range_succ, List.foldl_append]
      rfl
    rw [hstep]
    dsimp only
    split_ifs with hmatch
    · have hcurn : (sf_backward_scan fs L nme t n).current = t.current := i1
      rw [hcurn]
      have hin : t.current < (sf_backward_scan fs L nme t n).views.length := by
        rw [i2]
        exact hcur
      obtain ⟨p1, p2, _, p4, p5, p6, _⟩ :=
        sf_view_set_selected_entry_spec fs (sf_backward_scan fs L nme t n)
          t.current n hin
      refine ⟨by rw [p1, hcurn], by rw [p2, i2], by rw [p4, i3],
        by rw [p5, i4], ?_, ?_⟩
      · intro hnone
        exact absurd hmatch (hnone n (Nat.lt_succ_self n))
      · intro k hk hkm huniq
        by_cases hkn : k = n
        · rw [p6, hkn]
        · exact absurd hmatch (huniq n (Nat.lt_succ_self n) (fun h => hkn h.symm))
    · refine ⟨i1, i2, i3, i4, ?_, ?_⟩
      · intro hnone
        exact i5 (fun j hj => hnone j (Nat.lt_succ_of_lt hj))
      · intro k hk hkm huniq
        have hkn : k ≠ n := by
          intro h
          rw [h] at hkm
          exact hmatch hkm
        have hk' : k < n := by
          rcases Nat.lt_succ_iff_lt_or_eq.mp hk with h | h
          · exact h
          · exact absurd h hkn
        exact i6 k hk' hkm
          (fun j hj hjk => huniq j (Nat.lt_succ_of_lt hj) hjk)

theorem sf_key_forward_spec (fs : Fs) (s : SFState) (raw2 : List Entry)
    (hcur : s.current < s.views.length)
    (hcwd : cwdInv s)
    (hdir : ((sf_selected_deref (s.viewAt s.current)).getD default).etype =
      EntryType.directory)
    (htgt : fs ((s.viewAt s.current).path ++
        [((sf_selected_deref (s.viewAt s.current)).getD default).name]) =
      some raw2) :
    (sf_key_forward fs s).current = s.current ∧
    (sf_key_forward fs s).views.length = s.views.length ∧
    (sf_key_forward fs s).show_hidden = s.show_hidden ∧
    ((sf_key_forward fs s).viewAt s.current).path =
      (s.viewAt s.current).path ++
        [((sf_selected_deref (s.viewAt s.current)).getD default).name] ∧
    (sf_key_forward fs s).cwd =
      (s.viewAt s.current).path ++
        [((sf_selected_deref (s.viewAt s.current)).getD default).name] := by
  have hcwd' : s.cwd = (s.viewAt s.current).path := hcwd
  unfold sf_key_forward
  dsimp only
  rw [if_pos hdir, hcwd']
  obtain ⟨q1, q2, q3, q4, _, _, _, _, q9⟩ :=
    sf_view_set_path_spec fs s s.current
      ((s.viewAt s.current).path ++
        [((sf_selected_deref (s.viewAt s.current)).getD default).name])
      raw2 htgt hcur
  have hvisT : (fs (((sf_view_set_path fs s s.current
      ((s.viewAt s.current).path ++
        [((sf_selected_deref (s.viewAt s.current)).getD default).name])).viewAt
          s.current).path)).isSome := by
    rw [q4, htgt]
    rfl
  have hS1cwd := q9 hvisT
  have hi1 : s.current < (sf_view_set_path fs s s.current
      ((s.viewAt s.current).path ++
        [((sf_selected_deref (s.viewAt s.current)).getD default).name])).views.length := by
    rw [q2]
    exact hcur
  rw [q1]
  obtain ⟨r1, r2, r3, r4, _, _, _⟩ :=
    sf_view_set_selected_entry_spec fs
      (sf_view_set_path fs s s.current
        ((s.viewAt s.current).path ++
          [((sf_selected_deref (s.viewAt s.current)).getD default).name]))
      s.current 0 hi1
  have rcwd := sf_view_set_selected_entry_cwd fs
    (sf_view_set_path fs s s.current
      ((s.viewAt s.current).path ++
        [((sf_selected_deref (s.viewAt s.current)).getD default).name]))
    s.current 0 hi1
    (by unfold cwdInv; rw [q1]; exact hS1cwd)
    (by rw [q1]; exact hvisT)
  refine ⟨r1.trans q1, r2.trans q2, r3.trans q3, r4.trans q4, ?_⟩
  rw [rcwd, hS1cwd, q4]

/-- C4.  From a reachable state (working directory equal to the active
view's path, both the view's directory and the selected subdirectory `D`
accessible), descending into the selected directory `D` and immediately
ascending yields a path equal to the original path; and when `D` occurs
(under its original name, uniquely — listing names are unique on a real
filesystem) in the re-listed parent directory, the selection lands on the
index of the entry named `D`. -/
theorem sf_c4_descend_then_ascend (fs : Fs) (s : SFState)
    (raw raw2 : List Entry)
    (hcur : s.current < s.views.length)
    (hcwd : cwdInv s)
    (hdir : ((sf_selected_deref (s.viewAt s.current)).getD default).etype =
      EntryType.directory)
    (hp : fs ((s.viewAt s.current).path) = some raw)
    (htgt : fs ((s.viewAt s.current).path ++
        [((sf_selected_deref (s.viewAt s.current)).getD default).name]) =
      some raw2) :
    ((sf_key_backward fs (sf_key_forward fs s)).viewAt
        (sf_key_backward fs (sf_key_forward fs s)).current).path =
      (s.viewAt s.current).path ∧
    (∀ k,
      k < (sf_listing fs s.show_hidden ((s.viewAt s.current).path)).length →
      ((sf_listing fs s.show_hidden ((s.viewAt s.current).path)).getD k
          default).name =
        ((sf_selected_deref (s.viewAt s.current)).getD default).name →
      (∀ j,
        j < (sf_listing fs s.show_hidden ((s.viewAt s.current).path)).length →
        j ≠ k →
        ((sf_listing fs s.show_hidden ((s.viewAt s.current).path)).getD j
            default).name ≠
          ((sf_selected_deref (s.viewAt s.current)).getD default).name) →
      ((sf_key_backward fs (sf_key_forward fs s)).viewAt
          (sf_key_backward fs (sf_key_forward fs s)).current).selected_entry =
        k) := by
  obtain ⟨f1, f2, f3, f4, f5⟩ := sf_key_forward_spec fs s raw2 hcur hcwd hdir htgt
  have hdefB : sf_key_backward fs (sf_key_forward fs s) =
      sf_backward_scan fs
        ((SFState.viewAt
          (sf_view_set_path fs (sf_key_forward fs s)
            (sf_key_forward fs s).current (sf_key_forward fs s).cwd.dropLast)
          (sf_view_set_path fs (sf_key_forward fs s)
            (sf_key_forward fs s).current
            (sf_key_forward fs s).cwd.dropLast).current).entries)
        (sf_get_top_dir ((sf_key_forward fs s).viewAt
          (sf_key_forward fs s).current).path)
        (sf_view_set_path fs (sf_key_forward fs s)
          (sf_key_forward fs s).current (sf_key_forward fs s).cwd.dropLast)
        ((SFState.viewAt
          (sf_view_set_path fs (sf_key_forward fs s)
            (sf_key_forward fs s).current (sf_key_forward fs s).cwd.dropLast)
          (sf_view_set_path fs (sf_key_forward fs s)
            (sf_key_forward fs s).current
            (sf_key_forward fs s).cwd.dropLast).current).entries.length) := rfl
  have hFcd : (sf_key_forward fs s).cwd.dropLast = (s.viewAt s.current).path := by
    rw [f5]
    exact List.dropLast_concat
  rw [hdefB, f1, hFcd]
  have htop : sf_get_top_dir
      ((sf_key_forward fs s).viewAt s.current).path =
      ((sf_selected_deref (s.viewAt s.current)).getD default).name := by
    rw [f4]
    exact sf_get_top_dir_concat _ _
  rw [htop]
  have hiF : s.current < (sf_key_forward fs s).views.length := by
    rw [f2]
    exact hcur
  obtain ⟨b1, b2, b3, b4, b5, _, _, _, _⟩ :=
    sf_view_set_path_spec fs (sf_key_forward fs s) s.current
      ((s.viewAt s.current).path) raw hp hiF
  have hS1cur : (sf_view_set_path fs (sf_key_forward fs s) s.current
      ((s.viewAt s.current).path)).current = s.current := b1.trans f1
  have hV1 : ((sf_view_set_path fs (sf_key_forward fs s) s.current
      ((s.viewAt s.current).path)).viewAt
        (sf_view_set_path fs (sf_key_forward fs s) s.current
          ((s.viewAt s.current).path)).current).entries =
      sf_listing fs s.show_hidden ((s.viewAt s.current).path) := by
    rw [hS1cur, b5, f3]
  rw [hV1]
  have hS1len : (sf_view_set_path fs (sf_key_forward fs s) s.current
      ((s.viewAt s.current).path)).current <
      (sf_view_set_path fs (sf_key_forward fs s) s.current
        ((s.viewAt s.current).path)).views.length := by
    rw [hS1cur, b2, f2]
    exact hcur
  have hV1c : ((sf_view_set_path fs (sf_key_forward fs s) s.current
      ((s.viewAt s.current).path)).viewAt
        (sf_view_set_path fs (sf_key_forward fs s) s.current
          ((s.viewAt s.current).path)).current).entries =
      sf_listing fs s.show_hidden ((s.viewAt s.current).path) := hV1
  obtain ⟨c1, c2, c3, c4, c5, c6⟩ :=
    sf_backward_scan_spec fs
      (sf_listing fs s.show_hidden ((s.viewAt s.current).path))
      ((sf_selected_deref (s.viewAt s.current)).getD default).name
      (sf_view_set_path fs (sf_key_forward fs s) s.current
        ((s.viewAt s.current).path))
      (sf_listing fs s.show_hidden ((s.viewAt s.current).path)).length
      hS1len hV1c
  constructor
  · rw [c1, c3, hS1cur]
    exact b4
  · intro k hk hkm huniq
    rw [c1]
    exact c6 k hk hkm huniq

/-- Witness for C4: the concrete round trip — descend from `/a` into the
selected directory `b`, ascend, land back at `/a` with `b` re-selected at
its index in the sorted listing. -/
theorem sf_c4_descend_then_ascend_witness :
    ((sf_key_backward fsRoundTrip
        (sf_key_forward fsRoundTrip stRoundTrip)).viewAt
      (sf_key_backward fsRoundTrip
        (sf_key_forward fsRoundTrip stRoundTrip)).current).path = ["a"] ∧
    ((sf_key_backward fsRoundTrip
        (sf_key_forward fsRoundTrip stRoundTrip)).viewAt
      (sf_key_backward fsRoundTrip
        (sf_key_forward fsRoundTrip stRoundTrip)).current).selected_entry = 0 := by
  have h := sf_c4_descend_then_ascend fsRoundTrip stRoundTrip
    [⟨"f", EntryType.file⟩, ⟨"b", EntryType.directory⟩] [] (by decide) rfl
    (by decide) (by decide) (by decide)
  refine ⟨h.1, h.2 0 (by decide) (by decide) ?_⟩
  intro j hj hjne
  have hlen : (sf_listing fsRoundTrip stRoundTrip.show_hidden
      ((stRoundTrip.viewAt stRoundTrip.current).path)).length = 2 := by decide
  rw [hlen] at hj
  interval_cases j
  · exact absurd rfl hjne
  · decide
